import Mathlib

/-!
# AuctionMania — verification of the bidding core

Shallow embedding of the auction server: the `Auction` bid state machine
(`models/Auction.js`), the `AuctionService` registry, the HTTP bid-history
route, and the socket handlers (`socketHandlers.js`).  Machine time
(`Date.now()`) is passed explicitly as an `Int` parameter `now`; a single
synchronous call observes one instant, matching the sequential semantics of
the single-threaded runtime.  JavaScript objects with optional fields are
embedded as structures of `Option`-typed fields (`none` = field absent /
value `null`, as noted per field).
-/

namespace AuctionMania

/-- One entry of `bidHistory`: the object `{userId, amount, timestamp}`
pushed by `placeBid`. -/
structure BidEntry where
  userId : String
  amount : Int
  timestamp : Int
deriving DecidableEq, Repr

/-- The distinct `message` strings produced by `Auction.placeBid` and
`AuctionService.placeBid`, with the interpolated values carried as data. -/
inductive Message where
  /-- `'Auction has ended'` -/
  | auctionEnded
  /-- `` `Bid must be at least ${minBid}` `` -/
  | bidMustBeAtLeast (minBid : Int)
  /-- `'Another bid is being processed, please try again'` -/
  | anotherBidProcessing
  /-- `` `Outbid! Current bid is ${currentBid}` `` -/
  | outbidCurrentBid (currentBid : Int)
  /-- `'Bid placed successfully'` -/
  | bidPlacedSuccessfully
  /-- `'Auction not found'` (service level) -/
  | auctionNotFound
  /-- `'Invalid bid amount'` (service level) -/
  | invalidBidAmount
deriving DecidableEq, Repr

/-- The result object of `Auction.placeBid`.  Every field except `success`
and `message` is optional: `none` means the JS object has no such property.
For `highestBidder`/`previousBidder` the inner `Option` is the stored
JS value, which may itself be `null` (= inner `none`). -/
structure BidResult where
  success : Bool
  message : Message
  minimumBid : Option Int := none
  currentBid : Option Int := none
  highestBidder : Option (Option String) := none
  newBid : Option Int := none
  previousBid : Option Int := none
  previousBidder : Option (Option String) := none
deriving DecidableEq, Repr

/-- The mutable state of one `Auction` instance (`models/Auction.js`). -/
structure Auction where
  id : String
  title : String
  startingPrice : Int
  currentBid : Int
  highestBidder : Option String
  endTime : Int
  biddingLock : Bool
  bidHistory : List BidEntry
  minBidIncrement : Int
deriving DecidableEq, Repr

/-- `new Auction(id, title, startingPrice, duration)` evaluated at creation
time `now`: `endTime = Date.now() + duration`, `minBidIncrement = 10`. -/
def Auction.new (id title : String) (startingPrice duration now : Int) : Auction :=
  { id := id
    title := title
    startingPrice := startingPrice
    currentBid := startingPrice
    highestBidder := none
    endTime := now + duration
    biddingLock := false
    bidHistory := []
    minBidIncrement := 10 }

/-- `isActive()`: `Date.now() < this.endTime`. -/
def Auction.isActive (a : Auction) (now : Int) : Bool :=
  now < a.endTime

/-- `getTimeRemaining()`: `Math.max(0, this.endTime - Date.now())`. -/
def Auction.getTimeRemaining (a : Auction) (now : Int) : Int :=
  max 0 (a.endTime - now)

/-- `getMinimumNextBid()`: `this.currentBid + this.minBidIncrement`. -/
def Auction.getMinimumNextBid (a : Auction) : Int :=
  a.currentBid + a.minBidIncrement

/-- `placeBid(userId, bidAmount)`, returning the result object together with
the post-call state of the auction.  The `try { ... } finally
{ this.biddingLock = false }` block is embedded by resetting the lock on
every exit path of the locked region. -/
def Auction.placeBid (a : Auction) (userId : String) (bidAmount : Int) (now : Int) :
    BidResult × Auction :=
  if ¬ a.isActive now then
    ({ success := false, message := .auctionEnded }, a)
  else
    let minBid := a.getMinimumNextBid
    if bidAmount < minBid then
      ({ success := false, message := .bidMustBeAtLeast minBid, minimumBid := some minBid }, a)
    else if a.biddingLock then
      ({ success := false, message := .anotherBidProcessing }, a)
    else
      let a1 : Auction := { a with biddingLock := true }
      if ¬ a1.isActive now then
        ({ success := false, message := .auctionEnded }, { a1 with biddingLock := false })
      else
        let currentMinBid := a1.getMinimumNextBid
        if bidAmount < currentMinBid then
          ({ success := false
             message := .outbidCurrentBid a1.currentBid
             currentBid := some a1.currentBid
             highestBidder := some a1.highestBidder },
           { a1 with biddingLock := false })
        else
          let previousBidder := a1.highestBidder
          let previousBid := a1.currentBid
          ({ success := true
             message := .bidPlacedSuccessfully
             newBid := some bidAmount
             previousBid := some previousBid
             previousBidder := some previousBidder
             highestBidder := some (some userId) },
           { a1 with
              currentBid := bidAmount
              highestBidder := some userId
              bidHistory := a1.bidHistory ++ [⟨userId, bidAmount, now⟩]
              biddingLock := false })

/-- The snapshot object returned by `getState()`. -/
structure AuctionState where
  id : String
  title : String
  startingPrice : Int
  currentBid : Int
  highestBidder : Option String
  endTime : Int
  timeRemaining : Int
  isActive : Bool
  minBidIncrement : Int
deriving DecidableEq, Repr

/-- `getState()` evaluated at time `now`. -/
def Auction.getState (a : Auction) (now : Int) : AuctionState :=
  { id := a.id
    title := a.title
    startingPrice := a.startingPrice
    currentBid := a.currentBid
    highestBidder := a.highestBidder
    endTime := a.endTime
    timeRemaining := a.getTimeRemaining now
    isActive := a.isActive now
    minBidIncrement := a.minBidIncrement }

/-! ## AuctionService — the registry (`services/AuctionService.js`) -/

/-- The `auctions` Map of the `AuctionService` singleton, embedded as an
association list keyed by auction id. -/
abbrev Registry := List (String × Auction)

/-- `this.auctions.get(auctionId)` (`undefined` ↦ `none`). -/
def Registry.findAuction (m : Registry) (auctionId : String) : Option Auction :=
  (List.find? (fun p => p.1 = auctionId) m).map (fun p => p.2)

/-- In-place mutation of the auction object held under `auctionId`. -/
def Registry.setAuction (m : Registry) (auctionId : String) (a : Auction) : Registry :=
  List.map (fun p => if p.1 = auctionId then (p.1, a) else p) m

/-- The result object of `AuctionService.placeBid`: the spread of the
auction-level result plus `auctionId` and `statusCode` (the two early
returns carry no `auctionId`). -/
structure ServiceBidResult where
  success : Bool
  message : Message
  minimumBid : Option Int := none
  currentBid : Option Int := none
  highestBidder : Option (Option String) := none
  newBid : Option Int := none
  previousBid : Option Int := none
  previousBidder : Option (Option String) := none
  auctionId : Option String := none
  statusCode : Int
deriving DecidableEq, Repr

/-- `AuctionService.placeBid(auctionId, userId, bidAmount)`.  The incoming
`bidAmount` is a JS value: `none` embeds any non-number
(`typeof bidAmount !== 'number'`), `some n` a number `n`.  Returns the
result together with the registry after the call. -/
def AuctionService.placeBid (m : Registry) (auctionId userId : String)
    (bidAmount : Option Int) (now : Int) : ServiceBidResult × Registry :=
  match m.findAuction auctionId with
  | none =>
    ({ success := false, message := .auctionNotFound, statusCode := 404 }, m)
  | some auction =>
    match bidAmount with
    | none =>
      ({ success := false, message := .invalidBidAmount, statusCode := 400 }, m)
    | some amt =>
      if amt ≤ 0 then
        ({ success := false, message := .invalidBidAmount, statusCode := 400 }, m)
      else
        let r := auction.placeBid userId amt now
        ({ success := r.1.success
           message := r.1.message
           minimumBid := r.1.minimumBid
           currentBid := r.1.currentBid
           highestBidder := r.1.highestBidder
           newBid := r.1.newBid
           previousBid := r.1.previousBid
           previousBidder := r.1.previousBidder
           auctionId := some auctionId
           statusCode := if r.1.success then 200 else 400 },
         m.setAuction auctionId r.2)

/-- `AuctionService.getBidHistory(auctionId)`:
`auction ? auction.bidHistory : []`.  The embedded return type is the JS
value domain (`none` = `null`); note the function never produces `null`. -/
def AuctionService.getBidHistory (m : Registry) (auctionId : String) :
    Option (List BidEntry) :=
  match m.findAuction auctionId with
  | some auction => some auction.bidHistory
  | none => some []

/-- The response of `GET /items/:auctionId/bid-history`:
`(status, success, data)`.  The route replies 404 when
`AuctionService.getBidHistory` returns `null`, else 200 with the history. -/
def bidHistoryRoute (m : Registry) (auctionId : String) :
    Int × Bool × Option (List BidEntry) :=
  match AuctionService.getBidHistory m auctionId with
  | none => (404, false, none)
  | some history => (200, true, some history)

/-! ## Socket layer — room membership and the BID_PLACED handler
(`utils/socketHandlers.js`) -/

/-- Room membership, as maintained by socket.io: the set of
`(socketId, roomName)` pairs.  The only room-mutating calls in the repo's
handlers are `socket.join` in `JOIN_AUCTION` and `socket.leave` in
`LEAVE_AUCTION`. -/
abbrev RoomState := List (String × String)

/-- The room-membership events a connection can trigger. -/
inductive RoomEvent where
  | joinAuction (sid auctionId : String)
  | leaveAuction (sid auctionId : String)
deriving DecidableEq, Repr

/-- One room-membership transition: `JOIN_AUCTION` runs
`` socket.join(`auction:${auctionId}`) ``, `LEAVE_AUCTION` runs
`` socket.leave(`auction:${auctionId}`) ``.  No handler ever joins any
other room. -/
def roomStep (rs : RoomState) : RoomEvent → RoomState
  | .joinAuction sid aid => (sid, "auction:" ++ aid) :: rs
  | .leaveAuction sid aid =>
    List.filter (fun p => ¬ (p.1 = sid ∧ p.2 = "auction:" ++ aid)) rs

/-- Room membership after a sequence of join/leave events, starting from no
memberships (a fresh server). -/
def runRooms (es : List RoomEvent) : RoomState :=
  List.foldl roomStep [] es

/-- The sockets that an `io.to(room).emit(...)` reaches. -/
def roomMembers (rs : RoomState) (room : String) : List String :=
  List.map (fun p => p.1) (List.filter (fun p => p.2 = room) rs)

/-- An emission performed by a socket handler: either to every member of a
room (`io.to(room).emit(ev)`) or to the handling connection itself
(`socket.emit(ev)`). -/
inductive Emit where
  | toRoom (room : String) (event : String)
  | toSocket (sid : String) (event : String)
deriving DecidableEq, Repr

/-- The `BID_PLACED` handler: runs `AuctionService.placeBid` and emits
`BID_UPDATE`/`BID_SUCCESS` (+ conditionally `OUTBID`) on success, else
`BID_ERROR`.  `userId` is the connection's bidder identifier
(`handshake.query.userId || socket.id`).  JS truthiness of
`result.previousBidder` makes the `OUTBID` guard fail when the field is
absent, `null`, or the empty string. -/
def handleBidPlaced (m : Registry) (sid userId auctionId : String)
    (amount : Option Int) (now : Int) : Registry × List Emit :=
  let r := AuctionService.placeBid m auctionId userId amount now
  if r.1.success then
    let base := [Emit.toRoom ("auction:" ++ auctionId) "BID_UPDATE",
                 Emit.toSocket sid "BID_SUCCESS"]
    let outbid :=
      match r.1.previousBidder with
      | some (some p) => if p ≠ "" ∧ p ≠ userId then [Emit.toRoom ("user:" ++ p) "OUTBID"] else []
      | _ => []
    (r.2, base ++ outbid)
  else
    (r.2, [Emit.toSocket sid "BID_ERROR"])

/-! ## Server events — heartbeats and bids (for clock-offset
noninterference) -/

/-- The registry-relevant socket events: a bid submission and a heartbeat
carrying an arbitrary client-reported `clientTime`
(`clientData?.clientTime`, `none` = absent). -/
inductive ServerEvent where
  | bidPlaced (auctionId userId : String) (amount : Option Int) (now : Int)
  | heartbeat (clientTime : Option Int) (now : Int)
deriving DecidableEq, Repr

/-- What the server sends back for one event: the bid result, or the
`HEARTBEAT_ACK {serverTime, clientTime}` echo. -/
inductive ServerOutput where
  | bidResult (r : ServiceBidResult)
  | heartbeatAck (serverTime : Int) (clientTime : Option Int)
deriving DecidableEq, Repr

/-- One server step: `BID_PLACED` runs the service; `HEARTBEAT` only echoes
`{serverTime: Date.now(), clientTime: clientData?.clientTime}`. -/
def serverStep (m : Registry) : ServerEvent → ServerOutput × Registry
  | .bidPlaced aid uid amt now =>
    let r := AuctionService.placeBid m aid uid amt now
    (.bidResult r.1, r.2)
  | .heartbeat ct now => (.heartbeatAck now ct, m)

/-- Run a sequence of server events, collecting the outputs in order. -/
def serverRun (m : Registry) : List ServerEvent → List ServerOutput × Registry
  | [] => ([], m)
  | e :: es =>
    let r := serverStep m e
    let rest := serverRun r.2 es
    (r.1 :: rest.1, rest.2)

/-- Two events are equal up to the client-reported `clientTime` of a
heartbeat: bids must agree exactly, heartbeats must agree on the server
clock but may carry any client payloads. -/
def eventEquiv : ServerEvent → ServerEvent → Bool
  | .bidPlaced a u n t, .bidPlaced a' u' n' t' => a == a' && u == u' && n == n' && t == t'
  | .heartbeat _ t, .heartbeat _ t' => t == t'
  | _, _ => false

/-- Pointwise `eventEquiv` on event traces. -/
def tracesEquiv : List ServerEvent → List ServerEvent → Bool
  | [], [] => true
  | e :: es, f :: fs => eventEquiv e f && tracesEquiv es fs
  | _, _ => false

/-- The bid results in an output trace (heartbeat acks dropped). -/
def bidOutputs : List ServerOutput → List ServiceBidResult
  | [] => []
  | .bidResult r :: os => r :: bidOutputs os
  | .heartbeatAck _ _ :: os => bidOutputs os

/-! ## Traces of `placeBid` calls on one auction -/

/-- One `placeBid` invocation: the bidder, the amount, and the server time
at which the call runs. -/
structure BidEvent where
  userId : String
  amount : Int
  now : Int
deriving DecidableEq, Repr

/-- The auction state after a sequence of `placeBid` calls. -/
def runBids (a : Auction) : List BidEvent → Auction
  | [] => a
  | e :: es => runBids (a.placeBid e.userId e.amount e.now).2 es

/-- How many of the calls in the sequence returned `success: true`. -/
def countAccepted (a : Auction) : List BidEvent → Nat
  | [] => 0
  | e :: es =>
    let r := a.placeBid e.userId e.amount e.now
    (if r.1.success then 1 else 0) + countAccepted r.2 es

/-! ## Spec §4.1 — the single-pass three-step algorithm

These definitions follow the specification's words, for comparison with the
implementation above (refinement claim). -/

/-- The spec's error taxonomy (§7). -/
inductive SpecReason where
  | INVALID_INPUT
  | AUCTION_CLOSED
  | BID_TOO_LOW
  | NOT_FOUND
deriving DecidableEq, Repr

/-- The `BidResult` of spec §4.1, with field presence as written there:
step 1 returns `{accepted:false, reason:AUCTION_CLOSED}`; step 2 returns
`{accepted:false, reason:BID_TOO_LOW, currentBid, minBid}`; step 3 returns
`{accepted:true, newBid, leaderId, previousLeader, previousBid}`. -/
structure SpecBidResult where
  accepted : Bool
  reason : Option SpecReason := none
  currentBid : Option Int := none
  minBid : Option Int := none
  newBid : Option Int := none
  leaderId : Option String := none
  previousLeader : Option (Option String) := none
  previousBid : Option Int := none
deriving DecidableEq, Repr

/-- Spec §4.1, steps 1–3, as one single-pass atomic transition: deadline
check, increment check, commit. -/
def placeBidSpec (a : Auction) (bidderId : String) (amount : Int) (now : Int) :
    SpecBidResult × Auction :=
  if a.endTime ≤ now then
    ({ accepted := false, reason := some .AUCTION_CLOSED }, a)
  else
    let minBid := a.currentBid + a.minBidIncrement
    if amount < minBid then
      ({ accepted := false, reason := some .BID_TOO_LOW
         currentBid := some a.currentBid, minBid := some minBid }, a)
    else
      ({ accepted := true, newBid := some amount, leaderId := some bidderId
         previousLeader := some a.highestBidder, previousBid := some a.currentBid },
       { a with
          currentBid := amount
          highestBidder := some bidderId
          bidHistory := a.bidHistory ++ [⟨bidderId, amount, now⟩] })

/-- The spec reason conveyed by each implementation message (§7 taxonomy);
`none` when the message corresponds to no reason of the taxonomy. -/
def messageReason : Message → Option SpecReason
  | .auctionEnded => some .AUCTION_CLOSED
  | .bidMustBeAtLeast _ => some .BID_TOO_LOW
  | .outbidCurrentBid _ => some .BID_TOO_LOW
  | .anotherBidProcessing => none
  | .bidPlacedSuccessfully => none
  | .auctionNotFound => some .NOT_FOUND
  | .invalidBidAmount => some .INVALID_INPUT

/-- The implementation's `highestBidder` field read as the spec's
`leaderId` (present with a non-null bidder). -/
def implLeaderId : Option (Option String) → Option String
  | some (some u) => some u
  | _ => none

/-- Field-by-field correspondence between an implementation result object
and a spec `BidResult`: same acceptance flag, same reason, and the same
optional payload fields (`minimumBid` ↔ `minBid`, `highestBidder` ↔
`leaderId`, `previousBidder` ↔ `previousLeader`), with `none` = absent on
both sides. -/
def matchesSpec (r : BidResult) (s : SpecBidResult) : Bool :=
  r.success == s.accepted &&
  messageReason r.message == s.reason &&
  r.currentBid == s.currentBid &&
  r.minimumBid == s.minBid &&
  r.newBid == s.newBid &&
  r.previousBid == s.previousBid &&
  implLeaderId r.highestBidder == s.leaderId &&
  r.previousBidder == s.previousLeader

/-- `matchesSpec` with the `currentBid` field exempted. -/
def matchesSpecExceptCurrentBid (r : BidResult) (s : SpecBidResult) : Bool :=
  r.success == s.accepted &&
  messageReason r.message == s.reason &&
  r.minimumBid == s.minBid &&
  r.newBid == s.newBid &&
  r.previousBid == s.previousBid &&
  implLeaderId r.highestBidder == s.leaderId &&
  r.previousBidder == s.previousLeader

/-! ## The §3 data-model invariant -/

/-- The spec §3 invariants on one auction state: price floor, strictly
increasing history, and the coupling of `currentBid`/`highestBidder` to
the last history entry. -/
def Inv (a : Auction) : Prop :=
  0 < a.minBidIncrement ∧
  a.startingPrice ≤ a.currentBid ∧
  List.Chain' (fun p q => p.amount < q.amount) a.bidHistory ∧
  (a.bidHistory = [] → a.currentBid = a.startingPrice ∧ a.highestBidder = none) ∧
  (∀ e, a.bidHistory.getLast? = some e →
    a.currentBid = e.amount ∧ a.highestBidder = some e.userId)

/-- The messages produced only inside the locked region of `placeBid`
(the lock-collision rejection and the in-lock re-check rejection). -/
def isLockBranchMessage : Message → Bool
  | .anotherBidProcessing => true
  | .outbidCurrentBid _ => true
  | _ => false

/-- A concrete auction for evaluation: `new Auction('a1', 'Vintage
Camera', 50, 300000)` created at server time 0 (deadline 300000,
`minBidIncrement` 10). -/
def demoAuction : Auction := Auction.new "a1" "Vintage Camera" 50 300000 0

/-- A concrete registry holding `demoAuction` under id `a1`. -/
def sampleRegistry : Registry := [("a1", demoAuction)]

/-! ## Lemmas about one `placeBid` step -/

/-- A call evaluated at or after the deadline returns the closed result and
leaves the auction untouched. -/
theorem placeBid_closed (a : Auction) (u : String) (amt now : Int)
    (h : a.endTime ≤ now) :
    a.placeBid u amt now = ({ success := false, message := .auctionEnded }, a) := by
  simp [Auction.placeBid, Auction.isActive, show ¬ now < a.endTime by omega]

/-- An in-deadline call whose amount is below the minimum next bid is
rejected with the `Bid must be at least` message, carrying only
`minimumBid`, and leaves the auction untouched. -/
theorem placeBid_tooLow (a : Auction) (u : String) (amt now : Int)
    (h1 : now < a.endTime) (h2 : amt < a.getMinimumNextBid) :
    a.placeBid u amt now =
      ({ success := false, message := .bidMustBeAtLeast a.getMinimumNextBid
         minimumBid := some a.getMinimumNextBid }, a) := by
  simp [Auction.placeBid, Auction.isActive, h1, h2]

/-- An in-deadline, sufficient bid that finds the lock flag set is told to
retry and changes nothing. -/
theorem placeBid_locked (a : Auction) (u : String) (amt now : Int)
    (h1 : now < a.endTime) (h2 : ¬ amt < a.getMinimumNextBid)
    (h3 : a.biddingLock = true) :
    a.placeBid u amt now =
      ({ success := false, message := .anotherBidProcessing }, a) := by
  simp [Auction.placeBid, Auction.isActive, h1, h2, h3]

/-- An in-deadline, sufficient bid on an unlocked auction commits: the bid
is recorded and the success result is returned.  The lock flag is false
again in the post-state. -/
theorem placeBid_commit (a : Auction) (u : String) (amt now : Int)
    (h1 : now < a.endTime) (h2 : ¬ amt < a.getMinimumNextBid)
    (h3 : a.biddingLock = false) :
    a.placeBid u amt now =
      ({ success := true, message := .bidPlacedSuccessfully
         newBid := some amt, previousBid := some a.currentBid
         previousBidder := some a.highestBidder
         highestBidder := some (some u) },
       { a with
          currentBid := amt
          highestBidder := some u
          bidHistory := a.bidHistory ++ [⟨u, amt, now⟩]
          biddingLock := false }) := by
  simp only [Auction.getMinimumNextBid] at h2
  simp [Auction.placeBid, Auction.isActive, Auction.getMinimumNextBid, h1, h2, h3]

/-- One `placeBid` call preserves the §3 invariant, grows the history by
one exactly when it succeeds, and never changes the immutable fields. -/
theorem placeBid_step (a : Auction) (u : String) (amt t : Int) (h : Inv a) :
    Inv (a.placeBid u amt t).2 ∧
    (a.placeBid u amt t).2.bidHistory.length
      = a.bidHistory.length + (if (a.placeBid u amt t).1.success then 1 else 0) ∧
    (a.placeBid u amt t).2.startingPrice = a.startingPrice ∧
    (a.placeBid u amt t).2.endTime = a.endTime ∧
    (a.placeBid u amt t).2.minBidIncrement = a.minBidIncrement := by
  obtain ⟨hinc, hfloor, hchain, hempty, hlast⟩ := h
  by_cases h1 : t < a.endTime
  · by_cases h2 : amt < a.getMinimumNextBid
    · rw [placeBid_tooLow a u amt t h1 h2]
      exact ⟨⟨hinc, hfloor, hchain, hempty, hlast⟩, by simp, rfl, rfl, rfl⟩
    · cases h3 : a.biddingLock with
      | true =>
        rw [placeBid_locked a u amt t h1 h2 h3]
        exact ⟨⟨hinc, hfloor, hchain, hempty, hlast⟩, by simp, rfl, rfl, rfl⟩
      | false =>
        rw [placeBid_commit a u amt t h1 h2 h3]
        have hge : a.currentBid + a.minBidIncrement ≤ amt := by
          simpa [Auction.getMinimumNextBid, not_lt] using h2
        have hlt : a.currentBid < amt := by omega
        refine ⟨⟨hinc, by dsimp; omega, ?_, by simp, ?_⟩, by simp, rfl, rfl, rfl⟩
        · -- chain on `bidHistory ++ [new entry]`
          show List.Chain' _ (a.bidHistory ++ [⟨u, amt, t⟩])
          rw [List.chain'_append]
          refine ⟨hchain, List.chain'_singleton _, ?_⟩
          intro x hx y hy
          simp only [List.head?_cons, Option.mem_def, Option.some.injEq] at hy
          subst hy
          have := hlast x (by simpa using hx)
          simpa [this.1] using hlt
        · intro e he
          have he2 : (a.bidHistory ++
              [({ userId := u, amount := amt, timestamp := t } : BidEntry)]).getLast?
                = some e := he
          rw [List.getLast?_concat] at he2
          cases he2
          exact ⟨rfl, rfl⟩
  · rw [placeBid_closed a u amt t (by omega)]
    exact ⟨⟨hinc, hfloor, hchain, hempty, hlast⟩, by simp, rfl, rfl, rfl⟩

/-! ## Lemmas about traces -/

theorem runBids_nil (a : Auction) : runBids a [] = a := rfl

theorem runBids_cons (a : Auction) (e : BidEvent) (es : List BidEvent) :
    runBids a (e :: es) = runBids (a.placeBid e.userId e.amount e.now).2 es := rfl

theorem countAccepted_nil (a : Auction) : countAccepted a [] = 0 := rfl

theorem countAccepted_cons (a : Auction) (e : BidEvent) (es : List BidEvent) :
    countAccepted a (e :: es) =
      (if (a.placeBid e.userId e.amount e.now).1.success then 1 else 0) +
        countAccepted (a.placeBid e.userId e.amount e.now).2 es := rfl

/-- `runBids` preserves the invariant and counts its accepted calls in the
history length. -/
theorem runBids_inv (es : List BidEvent) :
    ∀ a : Auction, Inv a →
      Inv (runBids a es) ∧
      (runBids a es).bidHistory.length = a.bidHistory.length + countAccepted a es := by
  induction es with
  | nil => intro a ha; exact ⟨ha, by simp [runBids_nil, countAccepted_nil]⟩
  | cons e es ih =>
    intro a ha
    obtain ⟨hstep, hlen, -⟩ := placeBid_step a e.userId e.amount e.now ha
    obtain ⟨hinv', hlen'⟩ := ih _ hstep
    rw [runBids_cons, countAccepted_cons]
    exact ⟨hinv', by rw [hlen', hlen]; omega⟩

/-- The freshly constructed auction satisfies the invariant. -/
theorem inv_new (id title : String) (sp dur t0 : Int) :
    Inv (Auction.new id title sp dur t0) := by
  refine ⟨by norm_num [Auction.new], le_refl _, ?_, fun _ => ⟨rfl, rfl⟩, ?_⟩
  · simp [Auction.new]
  · intro e he
    simp [Auction.new] at he

/-! ## Lemmas about room membership -/

/-- An `auction:` room is never a `user:` room. -/
theorem auction_room_ne_user_room (x y : String) :
    "auction:" ++ x ≠ "user:" ++ y := by
  intro h
  have h2 := congrArg String.data h
  simp [String.data_append] at h2

/-- Folding the join/leave handlers never creates a membership in any
`user:` room. -/
theorem foldl_roomStep_no_user_rooms (es : List RoomEvent) :
    ∀ rs : RoomState, (∀ p ∈ rs, ∀ u : String, p.2 ≠ "user:" ++ u) →
      ∀ p ∈ List.foldl roomStep rs es, ∀ u : String, p.2 ≠ "user:" ++ u := by
  induction es with
  | nil => intro rs h; exact h
  | cons e es ih =>
    intro rs h
    refine ih (roomStep rs e) ?_
    cases e with
    | joinAuction sid aid =>
      intro p hp u
      rcases List.mem_cons.mp hp with hp | hp
      · subst hp; exact auction_room_ne_user_room aid u
      · exact h p hp u
    | leaveAuction sid aid =>
      intro p hp u
      exact h p (List.mem_of_mem_filter hp) u

/-- No reachable room state has any member in any `user:` room. -/
theorem runRooms_user_room_empty (es : List RoomEvent) (u : String) :
    roomMembers (runRooms es) ("user:" ++ u) = [] := by
  have h := foldl_roomStep_no_user_rooms es [] (by simp)
  unfold roomMembers runRooms
  have hf : List.filter (fun p => decide (p.2 = "user:" ++ u))
      (List.foldl roomStep [] es) = [] := by
    rw [List.filter_eq_nil_iff]
    intro p hp
    simpa using h p hp u
  rw [hf]
  rfl

/-! ## Claim theorems -/

/-- C1: after any finite sequence of `placeBid` calls on a freshly
constructed auction, the §3 invariants hold — `currentBid ≥
startingPrice`, the history amounts are strictly increasing, `currentBid`
equals the last history amount (or `startingPrice` when the history is
empty), the leader is defined iff the history is non-empty and then is the
bidder of the last entry — and the history length equals the number of
calls that returned `success: true`. -/
theorem trace_invariants (id title : String) (sp dur t0 : Int) (es : List BidEvent) :
    Inv (runBids (Auction.new id title sp dur t0) es) ∧
    (runBids (Auction.new id title sp dur t0) es).bidHistory.length
      = countAccepted (Auction.new id title sp dur t0) es := by
  obtain ⟨h1, h2⟩ := runBids_inv es _ (inv_new id title sp dur t0)
  refine ⟨h1, ?_⟩
  rw [h2]
  simp [Auction.new]

/-- C2: a `placeBid` evaluated at or after the deadline (the deadline
instant included) returns the `Auction has ended` rejection and leaves the
whole auction state unchanged; consequently any sequence of calls whose
times are all at or past the deadline leaves `currentBid`,
`highestBidder` and `bidHistory` (indeed the whole state) unchanged. -/
theorem deadline_closed_and_terminal :
    (∀ (a : Auction) (u : String) (amt now : Int), a.endTime ≤ now →
      a.placeBid u amt now = ({ success := false, message := .auctionEnded }, a)) ∧
    ∀ (a : Auction) (es : List BidEvent), (∀ e ∈ es, a.endTime ≤ e.now) →
      runBids a es = a := by
  refine ⟨placeBid_closed, ?_⟩
  intro a es
  induction es with
  | nil => intro h; rfl
  | cons e es ih =>
    intro h
    rw [runBids_cons, placeBid_closed a e.userId e.amount e.now (h e (List.mem_cons_self e es))]
    exact ih fun e' he' => h e' (List.mem_cons_of_mem e he')

/-- Witness for C2 at a concrete input: an auction with deadline 100, one
call exactly at the deadline and a trace of two late calls. -/
theorem deadline_closed_and_terminal_witness :
    (Auction.new "a" "t" 50 100 0).placeBid "x" 999 100
      = ({ success := false, message := .auctionEnded }, Auction.new "a" "t" 50 100 0) ∧
    runBids (Auction.new "a" "t" 50 100 0) [⟨"x", 999, 100⟩, ⟨"y", 1000, 150⟩]
      = Auction.new "a" "t" 50 100 0 :=
  ⟨deadline_closed_and_terminal.1 _ "x" 999 100 (by decide),
   deadline_closed_and_terminal.2 _ _ (by decide)⟩

/-- C3: on an active, unlocked auction a bid of exactly
`currentBid + minBidIncrement` is accepted and becomes the new
`currentBid`, while a bid of `currentBid + minBidIncrement - 1` is
rejected with the `Bid must be at least` (BID_TOO_LOW) result and changes
nothing.  The bidder `u` is arbitrary, so this covers in particular the
current leader raising their own bid. -/
theorem increment_boundary (a : Auction) (u : String) (now : Int)
    (hact : now < a.endTime) (hlock : a.biddingLock = false) :
    ((a.placeBid u a.getMinimumNextBid now).1.success = true ∧
     (a.placeBid u a.getMinimumNextBid now).2.currentBid = a.getMinimumNextBid) ∧
    ((a.placeBid u (a.getMinimumNextBid - 1) now).1 =
       { success := false, message := .bidMustBeAtLeast a.getMinimumNextBid
         minimumBid := some a.getMinimumNextBid } ∧
     (a.placeBid u (a.getMinimumNextBid - 1) now).2 = a) := by
  constructor
  · rw [placeBid_commit a u a.getMinimumNextBid now hact (by omega) hlock]
    exact ⟨rfl, rfl⟩
  · rw [placeBid_tooLow a u (a.getMinimumNextBid - 1) now hact (by omega)]
    exact ⟨rfl, rfl⟩

/-- Witness for C3: the demo auction (price 50, increment 10) accepts 60
and rejects 59, also when the bidder is already the leader. -/
theorem increment_boundary_witness :
    (((demoAuction.placeBid "x" demoAuction.getMinimumNextBid 10).1.success = true ∧
      (demoAuction.placeBid "x" demoAuction.getMinimumNextBid 10).2.currentBid
        = demoAuction.getMinimumNextBid) ∧
     ((demoAuction.placeBid "x" (demoAuction.getMinimumNextBid - 1) 10).1 =
        { success := false, message := .bidMustBeAtLeast demoAuction.getMinimumNextBid
          minimumBid := some demoAuction.getMinimumNextBid } ∧
      (demoAuction.placeBid "x" (demoAuction.getMinimumNextBid - 1) 10).2 = demoAuction)) :=
  increment_boundary demoAuction "x" 10 (by decide) (by decide)

/-- C4 (code bug): the pre-lock `BID_TOO_LOW` rejection of `placeBid`
carries only `minimumBid`; it has no `currentBid` field, and in a race the
loser's result therefore lacks the winner's price.  Evaluated on the demo
auction: `x` bids 60 (accepted), then `y` bids 65 against the committed
state and is rejected with `minimumBid = 70` but `currentBid` absent, so
the `BID_ERROR` event forwards an undefined `currentBid`. -/
theorem bid_too_low_lacks_currentBid :
    ((demoAuction.placeBid "x" 60 10).1.success = true ∧
     (demoAuction.placeBid "x" 60 10).1.newBid = some 60) ∧
    ((demoAuction.placeBid "x" 60 10).2.placeBid "y" 65 20).1.message
      = .bidMustBeAtLeast 70 ∧
    ((demoAuction.placeBid "x" 60 10).2.placeBid "y" 65 20).1.minimumBid = some 70 ∧
    ((demoAuction.placeBid "x" 60 10).2.placeBid "y" 65 20).1.currentBid = none := by
  decide

/-- C7 (code bug): `AuctionService.getBidHistory` returns `[]` rather than
`null` for an unknown id, so the `bid-history` route's `history === null`
check never fires and the route answers 200/success with an empty history
for an id that is not in the registry — the `NOT_FOUND` branch is dead. -/
theorem bid_history_unknown_id_success :
    Registry.findAuction sampleRegistry "missing" = none ∧
    bidHistoryRoute sampleRegistry "missing" = (200, true, some []) := by
  decide

/-- C8 counterexample: a bid with an empty `bidderId` and a valid amount
is accepted and mutates the auction state — `AuctionService.placeBid`
never validates the bidder, contradicting the claim that an empty
`bidderId` yields `INVALID_INPUT` without touching state. -/
theorem empty_bidder_accepted :
    (AuctionService.placeBid sampleRegistry "a1" "" (some 60) 10).1.success = true ∧
    (AuctionService.placeBid sampleRegistry "a1" "" (some 60) 10).1.statusCode = 200 ∧
    Option.map Auction.currentBid
      (Registry.findAuction (AuctionService.placeBid sampleRegistry "a1" "" (some 60) 10).2 "a1")
      = some 60 ∧
    Option.map Auction.highestBidder
      (Registry.findAuction (AuctionService.placeBid sampleRegistry "a1" "" (some 60) 10).2 "a1")
      = some (some "") := by
  decide

/-- C8 as amended: for a bid on an id present in the registry whose amount
is not a positive number (a non-number value or a number ≤ 0), the service
returns the `Invalid bid amount` rejection with status 400 and leaves the
registry untouched; the bidder identifier is not validated. -/
theorem invalid_amount_rejected (m : Registry) (auctionId userId : String)
    (amount : Option Int) (now : Int) (a : Auction)
    (hfound : m.findAuction auctionId = some a)
    (hbad : amount = none ∨ ∃ n, amount = some n ∧ n ≤ 0) :
    AuctionService.placeBid m auctionId userId amount now
      = ({ success := false, message := .invalidBidAmount, statusCode := 400 }, m) := by
  unfold AuctionService.placeBid
  rw [hfound]
  rcases hbad with h | ⟨n, rfl, hn⟩
  · subst h; rfl
  · simp [hn]

/-- Witness for C8's amended theorem: amount 0 on the demo registry. -/
theorem invalid_amount_rejected_witness :
    AuctionService.placeBid sampleRegistry "a1" "x" (some 0) 10
      = ({ success := false, message := .invalidBidAmount, statusCode := 400 },
         sampleRegistry) :=
  invalid_amount_rejected sampleRegistry "a1" "x" (some 0) 10 demoAuction
    (by decide) (Or.inr ⟨0, rfl, by decide⟩)

/-- C9 counterexample: five time units after the deadline,
`getState().timeRemaining` is 0, not `deadline - now = -5` — the code
clamps with `Math.max(0, ...)`, the claim's `deadline - now` does not. -/
theorem getState_timeRemaining_clamped :
    (demoAuction.getState 300005).timeRemaining = 0 ∧
    demoAuction.endTime - 300005 = -5 ∧
    (demoAuction.getState 300005).timeRemaining ≠ demoAuction.endTime - 300005 := by
  decide

/-- C9 as amended: `getState` is a pure read (a function of the auction
and the clock only, mutating nothing) returning the snapshot with
`timeRemaining = max 0 (deadline - now)` and `isActive ↔ now <
deadline`. -/
theorem getState_snapshot (a : Auction) (now : Int) :
    a.getState now =
      { id := a.id, title := a.title, startingPrice := a.startingPrice
        currentBid := a.currentBid, highestBidder := a.highestBidder
        endTime := a.endTime, timeRemaining := max 0 (a.endTime - now)
        isActive := decide (now < a.endTime), minBidIncrement := a.minBidIncrement } ∧
    ((a.getState now).isActive = true ↔ now < a.endTime) := by
  refine ⟨rfl, ?_⟩
  simp [Auction.getState, Auction.isActive]

/-- C5 (code bug): whenever the `BID_PLACED` handler emits an `OUTBID`
event, the room it targets (`` `user:${previousBidder}` ``) has no members
in any reachable room state: no handler ever joins a socket to a `user:`
room, so the previous leader never actually receives the notification the
spec requires. -/
theorem outbid_room_always_empty (es : List RoomEvent) (m : Registry)
    (sid uid aid room : String) (amt : Option Int) (now : Int)
    (hmem : Emit.toRoom room "OUTBID" ∈ (handleBidPlaced m sid uid aid amt now).2) :
    roomMembers (runRooms es) room = [] := by
  have hform : ∃ p : String, room = "user:" ++ p := by
    unfold handleBidPlaced at hmem
    dsimp only at hmem
    split_ifs at hmem with hs
    · simp only [List.mem_append, List.mem_cons, List.mem_singleton] at hmem
      rcases hmem with ((hmem | hmem) | hmem)
      · exact absurd hmem (by simp)
      · exact absurd hmem (by simp)
      · rcases hpb : (AuctionService.placeBid m aid uid amt now).1.previousBidder with
          _ | pv
        · rw [hpb] at hmem
          simp at hmem
        · cases pv with
          | none =>
            rw [hpb] at hmem
            simp at hmem
          | some p =>
            rw [hpb] at hmem
            dsimp only at hmem
            split_ifs at hmem with hc
            · simp only [List.mem_singleton, Emit.toRoom.injEq] at hmem
              exact ⟨p, hmem.1⟩
            · simp at hmem
    · simp at hmem
  obtain ⟨p, rfl⟩ := hform
  exact runRooms_user_room_empty es p

/-- Witness for C5: bidder `x` (socket `s1`) joins auction `a1` and bids
60; bidder `y` (socket `s2`) joins and bids 70, making the handler emit
`OUTBID` to room `user:x` — which has no members. -/
theorem outbid_room_always_empty_witness :
    roomMembers (runRooms [.joinAuction "s1" "a1", .joinAuction "s2" "a1"]) "user:x"
      = [] :=
  outbid_room_always_empty [.joinAuction "s1" "a1", .joinAuction "s2" "a1"]
    (AuctionService.placeBid sampleRegistry "a1" "x" (some 60) 10).2
    "s2" "y" "a1" "user:x" (some 70) 20 (by decide)

/-! ### Unfolding lemmas for server runs -/

theorem serverRun_nil (m : Registry) : serverRun m [] = ([], m) := rfl

theorem serverRun_cons (m : Registry) (e : ServerEvent) (es : List ServerEvent) :
    serverRun m (e :: es) =
      ((serverStep m e).1 :: (serverRun (serverStep m e).2 es).1,
       (serverRun (serverStep m e).2 es).2) := rfl

theorem bidOutputs_nil : bidOutputs [] = [] := rfl

theorem bidOutputs_bid (r : ServiceBidResult) (os : List ServerOutput) :
    bidOutputs (.bidResult r :: os) = r :: bidOutputs os := rfl

theorem bidOutputs_ack (t : Int) (c : Option Int) (os : List ServerOutput) :
    bidOutputs (.heartbeatAck t c :: os) = bidOutputs os := rfl

/-- C6: the server's handling of bids is independent of client-reported
clock data.  For any two event traces that agree except on the
`clientTime` payloads of `HEARTBEAT` messages, the final registry states
are equal and the `placeBid` results are pointwise equal; and handling a
`HEARTBEAT` never mutates the registry. -/
theorem heartbeat_noninterference :
    (∀ (m : Registry) (es1 es2 : List ServerEvent), tracesEquiv es1 es2 = true →
      (serverRun m es1).2 = (serverRun m es2).2 ∧
      bidOutputs (serverRun m es1).1 = bidOutputs (serverRun m es2).1) ∧
    ∀ (m : Registry) (ct : Option Int) (now : Int),
      (serverStep m (.heartbeat ct now)).2 = m := by
  constructor
  · intro m es1
    induction es1 generalizing m with
    | nil =>
      intro es2 h
      cases es2 with
      | nil => exact ⟨rfl, rfl⟩
      | cons f fs => simp [tracesEquiv] at h
    | cons e es ih =>
      intro es2 h
      cases es2 with
      | nil => simp [tracesEquiv] at h
      | cons f fs =>
        rw [show tracesEquiv (e :: es) (f :: fs)
              = (eventEquiv e f && tracesEquiv es fs) from rfl,
            Bool.and_eq_true] at h
        obtain ⟨hef, hrest⟩ := h
        cases e with
        | bidPlaced aid uid amt t =>
          cases f with
          | bidPlaced aid2 uid2 amt2 t2 =>
            simp only [eventEquiv, Bool.and_eq_true, beq_iff_eq] at hef
            obtain ⟨⟨⟨rfl, rfl⟩, rfl⟩, rfl⟩ := hef
            obtain ⟨h1, h2⟩ := ih (serverStep m (.bidPlaced aid uid amt t)).2 fs hrest
            rw [serverRun_cons, serverRun_cons]
            refine ⟨h1, ?_⟩
            rw [show (serverStep m (.bidPlaced aid uid amt t)).1
                  = .bidResult (AuctionService.placeBid m aid uid amt t).1 from rfl,
                bidOutputs_bid, bidOutputs_bid, h2]
          | heartbeat ct2 t2 => simp [eventEquiv] at hef
        | heartbeat ct t =>
          cases f with
          | bidPlaced aid2 uid2 amt2 t2 => simp [eventEquiv] at hef
          | heartbeat ct2 t2 =>
            simp only [eventEquiv, beq_iff_eq] at hef
            subst hef
            obtain ⟨h1, h2⟩ := ih m fs hrest
            rw [serverRun_cons, serverRun_cons]
            exact ⟨h1, by rw [show (serverStep m (.heartbeat ct t)).1
                  = .heartbeatAck t ct from rfl,
                show (serverStep m (.heartbeat ct2 t)).1
                  = .heartbeatAck t ct2 from rfl,
                bidOutputs_ack, bidOutputs_ack]; exact h2⟩
  · intro m ct now
    rfl

/-- Witness for C6: two concrete traces differing only in the heartbeat's
`clientTime` (5 vs 987654) produce the same registry and the same bid
result. -/
theorem heartbeat_noninterference_witness :
    (serverRun sampleRegistry
        [.heartbeat (some 5) 1, .bidPlaced "a1" "x" (some 60) 2]).2
      = (serverRun sampleRegistry
        [.heartbeat (some 987654) 1, .bidPlaced "a1" "x" (some 60) 2]).2 ∧
    bidOutputs (serverRun sampleRegistry
        [.heartbeat (some 5) 1, .bidPlaced "a1" "x" (some 60) 2]).1
      = bidOutputs (serverRun sampleRegistry
        [.heartbeat (some 987654) 1, .bidPlaced "a1" "x" (some 60) 2]).1 :=
  heartbeat_noninterference.1 sampleRegistry _ _ (by decide)

/-- C10 counterexample: on the demo auction a bid of 55 (below the
minimum 60) is rejected by both the implementation and the spec §4.1
algorithm, but the two results are not the same object: the spec's
`BID_TOO_LOW` result carries `currentBid` while the implementation's does
not, so the implemented `placeBid` is not extensionally equal to the
single-pass algorithm as written — the mismatch is exactly the missing
`currentBid` field. -/
theorem placeBid_spec_result_mismatch :
    matchesSpec (demoAuction.placeBid "y" 55 10).1
      (placeBidSpec demoAuction "y" 55 10).1 = false ∧
    matchesSpecExceptCurrentBid (demoAuction.placeBid "y" 55 10).1
      (placeBidSpec demoAuction "y" 55 10).1 = true ∧
    (demoAuction.placeBid "y" 55 10).1.currentBid = none ∧
    (placeBidSpec demoAuction "y" 55 10).1.currentBid = some 50 := by
  decide

/-- C10 as amended: in the sequential embedding, entered with
`biddingLock = false`, the implemented `placeBid` agrees with the
single-pass three-step algorithm of spec §4.1 on the acceptance decision,
the reason, every result field except the absent `currentBid` of the
`BID_TOO_LOW` result, and the entire post-state; the lock-collision branch
and the in-lock re-check rejections are unreachable, and `biddingLock` is
false again after the call. -/
theorem placeBid_refines_single_pass (a : Auction) (u : String) (amt now : Int)
    (hlock : a.biddingLock = false) :
    matchesSpecExceptCurrentBid (a.placeBid u amt now).1
      (placeBidSpec a u amt now).1 = true ∧
    (a.placeBid u amt now).2 = (placeBidSpec a u amt now).2 ∧
    isLockBranchMessage (a.placeBid u amt now).1.message = false ∧
    (a.placeBid u amt now).2.biddingLock = false := by
  obtain ⟨I, T, SP, CB, HB, ET, BL, BH, MI⟩ := a
  simp only [] at hlock
  subst hlock
  by_cases h1 : now < ET
  · by_cases h2 : amt < CB + MI
    · rw [placeBid_tooLow _ u amt now h1 (by simpa [Auction.getMinimumNextBid] using h2)]
      have hspec : placeBidSpec ⟨I, T, SP, CB, HB, ET, false, BH, MI⟩ u amt now =
          ({ accepted := false, reason := some .BID_TOO_LOW
             currentBid := some CB, minBid := some (CB + MI) },
           ⟨I, T, SP, CB, HB, ET, false, BH, MI⟩) := by
        simp [placeBidSpec, show ¬ ET ≤ now by omega, h2]
      rw [hspec]
      refine ⟨?_, rfl, rfl, rfl⟩
      simp [matchesSpecExceptCurrentBid, messageReason, implLeaderId,
        Auction.getMinimumNextBid]
    · rw [placeBid_commit _ u amt now h1 (by simpa [Auction.getMinimumNextBid] using h2)
        rfl]
      have hspec : placeBidSpec ⟨I, T, SP, CB, HB, ET, false, BH, MI⟩ u amt now =
          ({ accepted := true, newBid := some amt, leaderId := some u
             previousLeader := some HB, previousBid := some CB },
           ⟨I, T, SP, amt, some u, ET, false, BH ++ [⟨u, amt, now⟩], MI⟩) := by
        simp [placeBidSpec, show ¬ ET ≤ now by omega, h2]
      rw [hspec]
      refine ⟨?_, rfl, rfl, rfl⟩
      simp [matchesSpecExceptCurrentBid, messageReason, implLeaderId]
  · rw [placeBid_closed _ u amt now (by dsimp; omega)]
    have hspec : placeBidSpec ⟨I, T, SP, CB, HB, ET, false, BH, MI⟩ u amt now =
        ({ accepted := false, reason := some .AUCTION_CLOSED },
         ⟨I, T, SP, CB, HB, ET, false, BH, MI⟩) := by
      simp [placeBidSpec, show ET ≤ now by omega]
    rw [hspec]
    exact ⟨rfl, rfl, rfl, rfl⟩

/-- Witness for C10's amended theorem: the demo auction, an accepted bid
of 60. -/
theorem placeBid_refines_single_pass_witness :
    matchesSpecExceptCurrentBid (demoAuction.placeBid "x" 60 10).1
      (placeBidSpec demoAuction "x" 60 10).1 = true ∧
    (demoAuction.placeBid "x" 60 10).2 = (placeBidSpec demoAuction "x" 60 10).2 ∧
    isLockBranchMessage (demoAuction.placeBid "x" 60 10).1.message = false ∧
    (demoAuction.placeBid "x" 60 10).2.biddingLock = false :=
  placeBid_refines_single_pass demoAuction "x" 60 10 rfl

end AuctionMania
